import Mathlib

/-!
Verification of the hls.js core subsystems against their natural-language
specification.  Each section embeds one source component shallowly:
TypeScript classes become Lean structures, event-handler methods become
pure state-transition functions, and side effects (event emissions, timer
arming, callback invocations) are returned explicitly as data.
JavaScript numbers are modelled as `ℚ`/`ℤ`/`ℕ` where the code only adds,
compares and takes remainders, and as `ℝ` where the code calls `Math.exp`.
-/

/-! ## BufferOperationQueue (src/unnamed/part_001)

The queue serializes operations against a per-type SourceBuffer.  An
operation's `execute` either returns normally or throws synchronously; we
model this outcome as `throws : Option ℕ` (the payload is the thrown
value) and record the observable callback invocations as an event list.
-/

namespace BufferQueue

/-- Model of a SourceBuffer: only its `updating` flag is consulted by
`executeNext`. -/
structure SB where
  updating : Bool
deriving DecidableEq

/-- Model of a `BufferOperation`: `id` identifies the operation (the source
compares operations by reference), `throws = some e` models an `execute`
that throws `e` synchronously, `throws = none` an `execute` that returns
normally (and will later fire `updateend`). -/
structure BufferOperation where
  id : ℕ
  throws : Option ℕ
deriving DecidableEq

/-- Observable callback invocations performed by the queue. -/
inductive Ev where
  | execCalled : ℕ → Ev
  | onErrorCalled : ℕ → ℕ → Ev
deriving DecidableEq

/-- Embedding of `BufferOperationQueue.executeNext(type)`: given the
buffer for the type (`none` when absent) and the queue for the type,
returns the new queue and the callbacks invoked, in order.  When the head
throws, `onError` is invoked and the head is shifted off iff
`!sb || !sb.updating`; the source does not dispatch the next operation in
the catch branch. -/
def executeNext (sb : Option SB) (queue : List BufferOperation) :
    List BufferOperation × List Ev :=
  match queue with
  | [] => ([], [])
  | operation :: rest =>
    match operation.throws with
    | none => (operation :: rest, [Ev.execCalled operation.id])
    | some e =>
      let evs := [Ev.execCalled operation.id, Ev.onErrorCalled operation.id e]
      if (match sb with | none => true | some s => !s.updating) then
        (rest, evs)
      else
        (operation :: rest, evs)

/-- Embedding of `BufferOperationQueue.shiftAndExecuteNext(type)`:
`queue.shift()` followed by `executeNext`. -/
def shiftAndExecuteNext (sb : Option SB) (queue : List BufferOperation) :
    List BufferOperation × List Ev :=
  executeNext sb queue.tail

/-- Embedding of `BufferOperationQueue.append(operation, type)`: push, and
begin execution iff the queue became a singleton and the buffer exists. -/
def append (sb : Option SB) (queue : List BufferOperation)
    (operation : BufferOperation) : List BufferOperation × List Ev :=
  let queue' := queue ++ [operation]
  if queue'.length = 1 ∧ sb.isSome then executeNext sb queue' else (queue', [])

/-- Operation A used in the C1 scenario: its `execute` throws `7`. -/
def opA : BufferOperation := ⟨0, some 7⟩

/-- Operation B used in the C1 scenario: queued behind A. -/
def opB : BufferOperation := ⟨1, none⟩

/-- An idle source buffer (exists, not updating). -/
def idleSB : Option SB := some ⟨false⟩

end BufferQueue

/-- C1, counterexample: with operations A then B enqueued on a type whose
buffer is idle and A's `execute` throwing synchronously, `executeNext`
invokes A's `onError` with the thrown value and removes A, but it does
NOT dispatch B's `execute` — the catch branch only shifts the head. -/
theorem C1_counterexample_no_dispatch :
    (BufferQueue.executeNext BufferQueue.idleSB
        [BufferQueue.opA, BufferQueue.opB]).1 = [BufferQueue.opB] ∧
    BufferQueue.Ev.onErrorCalled 0 7 ∈
      (BufferQueue.executeNext BufferQueue.idleSB
        [BufferQueue.opA, BufferQueue.opB]).2 ∧
    BufferQueue.Ev.execCalled 1 ∉
      (BufferQueue.executeNext BufferQueue.idleSB
        [BufferQueue.opA, BufferQueue.opB]).2 := by
  decide

/-- C1, amended: if the head operation's `execute` throws synchronously,
`executeNext` invokes exactly the head's `execute` and the head's
`onError` with the thrown value; the head is removed iff the buffer for
the type is absent or not marked updating; no queued operation behind the
head has its `execute` dispatched. -/
theorem C1_executeNext_throw_amended (sb : Option BufferQueue.SB)
    (a : BufferQueue.BufferOperation) (rest : List BufferQueue.BufferOperation)
    (e : ℕ) (hth : a.throws = some e) :
    (BufferQueue.executeNext sb (a :: rest)).2 =
      [BufferQueue.Ev.execCalled a.id, BufferQueue.Ev.onErrorCalled a.id e] ∧
    (BufferQueue.executeNext sb (a :: rest)).1 =
      (if (match sb with | none => true | some s => !s.updating) then rest
       else a :: rest) ∧
    (∀ b ∈ rest, b.id ≠ a.id →
      BufferQueue.Ev.execCalled b.id ∉ (BufferQueue.executeNext sb (a :: rest)).2) := by
  refine ⟨?_, ?_, ?_⟩ <;>
    · simp only [BufferQueue.executeNext, hth]
      split <;> simp_all

/-- C1, witness for the amended theorem at the concrete scenario input. -/
theorem C1_executeNext_throw_amended_witness :
    (BufferQueue.executeNext BufferQueue.idleSB
        [BufferQueue.opA, BufferQueue.opB]).2 =
      [BufferQueue.Ev.execCalled 0, BufferQueue.Ev.onErrorCalled 0 7] ∧
    (BufferQueue.executeNext BufferQueue.idleSB
        [BufferQueue.opA, BufferQueue.opB]).1 =
      (if (match BufferQueue.idleSB with
            | none => true | some s => !s.updating) then [BufferQueue.opB]
       else [BufferQueue.opA, BufferQueue.opB]) ∧
    (∀ b ∈ [BufferQueue.opB], b.id ≠ 0 →
      BufferQueue.Ev.execCalled b.id ∉
        (BufferQueue.executeNext BufferQueue.idleSB
          [BufferQueue.opA, BufferQueue.opB]).2) :=
  C1_executeNext_throw_amended BufferQueue.idleSB BufferQueue.opA
    [BufferQueue.opB] 7 rfl

/-! ## PlaybackRateController (src/unnamed/part_000)

`doTick` reads `bufferLength` from the media sink (via
`BufferHelper.bufferInfo(media, pos, maxBufferHole).len`, external to the
controller) and writes `media.playbackRate`.  We model the attached media
as the derived `bufferLength` it yields, and the written playback rate as
the returned value (`none` when no media is attached so nothing is
written).  JavaScript numbers are modelled as `ℝ` because the gain uses
`Math.exp`. -/

namespace PlaybackRate

/-- Attached media, reduced to the forward-buffer length `doTick` derives
from it. -/
structure Media where
  bufferLength : ℝ

/-- Controller state: `media` is set by `onMediaAttached` and cleared by
`onMediaDetaching`; `latencyTarget` and `refreshLatency` are initialised
to 3 and 1 and never reassigned in the source. -/
structure State where
  media : Option Media
  latencyTarget : ℝ
  refreshLatency : ℝ

/-- State produced by the constructor: no media, `latencyTarget = 3`,
`refreshLatency = 1`. -/
def initial : State := ⟨none, 3, 1⟩

/-- Embedding of the module-level constant `L = 2`. -/
def L : ℝ := 2

/-- Embedding of the module-level constant `k = 0.5`. -/
def k : ℝ := 0.5

/-- Embedding of `sigmoid(x, x0) = L / (1 + Math.exp(-k * (x - x0)))`. -/
noncomputable def sigmoid (x x0 : ℝ) : ℝ := L / (1 + Real.exp (-k * (x - x0)))

/-- Embedding of `PlaybackRateController.doTick`: returns the playback
rate written to the media sink, or `none` when no media is attached.  The
source's locals `bufferLength` and `distance = latencyTarget −
bufferLength` are inlined. -/
noncomputable def doTick (c : State) : Option ℝ :=
  match c.media with
  | none => none
  | some media =>
    if c.latencyTarget - media.bufferLength < 0 ∨
        c.latencyTarget - media.bufferLength > c.refreshLatency then
      some (sigmoid media.bufferLength c.latencyTarget)
    else
      some 1

theorem one_add_exp_pos (y : ℝ) : 0 < 1 + Real.exp y := by
  have := Real.exp_pos y
  linarith

theorem sigmoid_pos (x x0 : ℝ) : 0 < sigmoid x x0 :=
  div_pos (by norm_num [L]) (one_add_exp_pos _)

theorem sigmoid_le_two (x x0 : ℝ) : sigmoid x x0 ≤ 2 := by
  rw [sigmoid, div_le_iff₀ (one_add_exp_pos _)]
  have := Real.exp_pos (-k * (x - x0))
  simp only [L]
  nlinarith

theorem sigmoid_eq_one_iff (x x0 : ℝ) : sigmoid x x0 = 1 ↔ x = x0 := by
  rw [sigmoid, div_eq_one_iff_eq (ne_of_gt (one_add_exp_pos _))]
  constructor
  · intro h
    have hexp : Real.exp (-k * (x - x0)) = 1 := by simp only [L] at h; linarith
    have := (Real.exp_eq_one_iff _).mp hexp
    have hk : k ≠ 0 := by norm_num [k]
    have : x - x0 = 0 := by
      rcases mul_eq_zero.mp this with h' | h'
      · exact absurd (neg_eq_zero.mp h') hk
      · exact h'
    linarith
  · intro h
    subst h
    simp only [sub_self, mul_zero, Real.exp_zero, L]
    norm_num

end PlaybackRate

/-- C5: on every tick with media attached (and the dead-band width
nonnegative, as holds for the constructed controller where it is 1), the
written playback rate equals 1 exactly when
`0 ≤ latencyTarget − bufferLength ≤ refreshLatency`, otherwise equals
`sigmoid(bufferLength, latencyTarget)`, and always lies in `(0, 2]`. -/
theorem C5_doTick_rate (c : PlaybackRate.State) (m : PlaybackRate.Media)
    (hm : c.media = some m) (hr : 0 ≤ c.refreshLatency) :
    ∃ rate, PlaybackRate.doTick c = some rate ∧ 0 < rate ∧ rate ≤ 2 ∧
      (rate = 1 ↔ (0 ≤ c.latencyTarget - m.bufferLength ∧
        c.latencyTarget - m.bufferLength ≤ c.refreshLatency)) ∧
      (¬(0 ≤ c.latencyTarget - m.bufferLength ∧
          c.latencyTarget - m.bufferLength ≤ c.refreshLatency) →
        rate = PlaybackRate.sigmoid m.bufferLength c.latencyTarget) := by
  simp only [PlaybackRate.doTick, hm]
  by_cases hcond : c.latencyTarget - m.bufferLength < 0 ∨
      c.latencyTarget - m.bufferLength > c.refreshLatency
  · rw [if_pos hcond]
    refine ⟨PlaybackRate.sigmoid m.bufferLength c.latencyTarget, rfl,
      PlaybackRate.sigmoid_pos _ _, PlaybackRate.sigmoid_le_two _ _, ?_, fun _ => rfl⟩
    rw [PlaybackRate.sigmoid_eq_one_iff]
    constructor
    · intro h
      exact ⟨by rw [h, sub_self], by rw [h, sub_self]; exact hr⟩
    · rintro ⟨h0, h1⟩
      exfalso
      rcases hcond with h' | h' <;> linarith
  · rw [if_neg hcond]
    have h0 : 0 ≤ c.latencyTarget - m.bufferLength :=
      not_lt.mp (fun h => hcond (Or.inl h))
    have h1 : c.latencyTarget - m.bufferLength ≤ c.refreshLatency :=
      not_lt.mp (fun h => hcond (Or.inr h))
    exact ⟨1, rfl, one_pos, one_le_two, iff_of_true rfl ⟨h0, h1⟩,
      fun hc => absurd ⟨h0, h1⟩ hc⟩

/-- C5, witness: a controller with media attached and an empty buffer. -/
theorem C5_doTick_rate_witness :
    ∃ rate, PlaybackRate.doTick ⟨some ⟨0⟩, 3, 1⟩ = some rate ∧
      0 < rate ∧ rate ≤ 2 ∧
      (rate = 1 ↔ (0 ≤ (3 : ℝ) - 0 ∧ (3 : ℝ) - 0 ≤ 1)) ∧
      (¬(0 ≤ (3 : ℝ) - 0 ∧ (3 : ℝ) - 0 ≤ 1) →
        rate = PlaybackRate.sigmoid 0 3) :=
  C5_doTick_rate ⟨some ⟨0⟩, 3, 1⟩ ⟨0⟩ rfl (by norm_num)

/-! ## TimelineController (src/unnamed/part_002)

Cue de-duplication (`addCues`), the initial-PTS synthesis guard
(`onFragParsingInitSegment`), and CEA-608 extraction
(`extractCea608Data`).  Times are modelled as `ℚ`; the de-dup ratio test
divides by `endTime − startTime`, which matches the JavaScript float
division whenever the new range has positive length. -/

namespace Timeline

/-- Embedding of the module-level helper
`intersection(x1, x2, y1, y2) = Math.min(x2, y2) - Math.max(x1, y1)`. -/
def intersection (x1 x2 y1 y2 : ℚ) : ℚ := min x2 y2 - max x1 y1

/-- Embedding of the `for (let i = ranges.length; i--;)` loop of
`addCues`, processing ranges from the last index downward; the argument
list is the range array reversed (head = highest index).  Returns the
processed (still reversed) ranges together with the `merged` flag and
whether the early `return` (drop) was taken; on a drop the remaining
(lower-index) ranges are left untouched. -/
def addCuesLoop (startTime endTime : ℚ) :
    List (ℚ × ℚ) → List (ℚ × ℚ) × Bool × Bool
  | [] => ([], false, false)
  | r :: rest =>
    let overlap := intersection r.1 r.2 startTime endTime
    if 0 ≤ overlap then
      let r' := (min r.1 startTime, max r.2 endTime)
      if overlap / (endTime - startTime) > 1 / 2 then
        (r' :: rest, true, true)
      else
        let res := addCuesLoop startTime endTime rest
        (r' :: res.1, true, res.2.2)
    else
      let res := addCuesLoop startTime endTime rest
      (r :: res.1, res.2.1, res.2.2)

/-- Embedding of `TimelineController.addCues` restricted to one track:
given the track's accepted ranges, returns the updated ranges and whether
the cue was delivered (`false` exactly when the early `return` dropped
it).  A new range is pushed only when no existing range was merged. -/
def addCues (ranges : List (ℚ × ℚ)) (startTime endTime : ℚ) :
    List (ℚ × ℚ) × Bool :=
  let res := addCuesLoop startTime endTime ranges.reverse
  let ranges' := res.1.reverse
  if res.2.2 then (ranges', false)
  else if res.2.1 then (ranges', true)
  else (ranges' ++ [(startTime, endTime)], true)

theorem addCuesLoop_dropped_iff (startTime endTime : ℚ)
    (hst : startTime < endTime) (l : List (ℚ × ℚ)) :
    (addCuesLoop startTime endTime l).2.2 = true ↔
      ∃ r ∈ l, intersection r.1 r.2 startTime endTime /
        (endTime - startTime) > 1 / 2 := by
  induction l with
  | nil => simp [addCuesLoop]
  | cons r rest ih =>
    by_cases hov : 0 ≤ intersection r.1 r.2 startTime endTime
    · by_cases hdrop : intersection r.1 r.2 startTime endTime /
          (endTime - startTime) > 1 / 2
      · refine iff_of_true ?_ ⟨r, List.mem_cons_self r rest, hdrop⟩
        simp only [addCuesLoop, if_pos hov, if_pos hdrop]
      · simp only [addCuesLoop, if_pos hov, if_neg hdrop]
        simp only [List.mem_cons, ih]
        constructor
        · intro h
          exact ⟨_, Or.inr (by exact h.choose_spec.1), h.choose_spec.2⟩
        · rintro ⟨r', hr', hgt⟩
          rcases hr' with rfl | hr'
          · exact absurd hgt hdrop
          · exact ⟨r', hr', hgt⟩
    · have hlt : intersection r.1 r.2 startTime endTime /
          (endTime - startTime) ≤ 1 / 2 := by
        have hpos : 0 < endTime - startTime := by linarith
        have : intersection r.1 r.2 startTime endTime /
            (endTime - startTime) < 0 :=
          div_neg_of_neg_of_pos (lt_of_not_le hov) hpos
        linarith
      simp only [addCuesLoop, if_neg hov]
      simp only [List.mem_cons, ih]
      constructor
      · rintro ⟨r', hr', hgt⟩
        exact ⟨r', Or.inr hr', hgt⟩
      · rintro ⟨r', hr', hgt⟩
        rcases hr' with rfl | hr'
        · exact absurd hgt (not_lt.mpr hlt)
        · exact ⟨r', hr', hgt⟩

theorem addCuesLoop_no_overlap (startTime endTime : ℚ) (l : List (ℚ × ℚ))
    (h : ∀ r ∈ l, intersection r.1 r.2 startTime endTime < 0) :
    addCuesLoop startTime endTime l = (l, false, false) := by
  induction l with
  | nil => rfl
  | cons r rest ih =>
    have hov : ¬ 0 ≤ intersection r.1 r.2 startTime endTime :=
      not_le.mpr (h r (List.mem_cons_self r rest))
    simp only [addCuesLoop, if_neg hov,
      ih (fun r' hr' => h r' (List.mem_cons_of_mem r hr'))]

end Timeline

/-- C7, counterexample: with accepted range `[0, 2]`, the new cue range
`[1, 3]` overlaps it by exactly 50% of the new range's length, yet the
cue is delivered (the source drops only on *strictly more* than 50%,
`overlap / (end − start) > 0.5`). -/
theorem C7_counterexample_half_overlap :
    (Timeline.addCues [((0 : ℚ), 2)] 1 3).2 = true ∧
    Timeline.intersection 0 2 1 3 / (3 - 1) = 1 / 2 := by
  constructor
  · have h1 : Timeline.intersection (0 : ℚ) 2 1 3 = 1 := by
      norm_num [Timeline.intersection]
    have hov : (0 : ℚ) ≤ Timeline.intersection 0 2 1 3 := by rw [h1]; norm_num
    have hdrop : ¬ Timeline.intersection (0 : ℚ) 2 1 3 / (3 - 1) > 1 / 2 := by
      rw [h1]; norm_num
    have hl : Timeline.addCuesLoop 1 3 [((0 : ℚ), 2)] =
        ([(0 ⊓ 1, 2 ⊔ 3)], true, false) := by
      simp only [Timeline.addCuesLoop]
      rw [if_pos hov, if_neg hdrop]
    simp [Timeline.addCues, hl]
  · norm_num [Timeline.intersection]

/-- C7, amended: for a new cue range of positive length, the cue is
dropped (not delivered) iff some existing accepted range of the track
overlaps it by *strictly more* than 50% of the new range's length; and
when no accepted range overlaps it at all, the cue is delivered and the
new range appended unchanged. -/
theorem C7_addCues_amended (ranges : List (ℚ × ℚ)) (startTime endTime : ℚ)
    (hst : startTime < endTime) :
    ((Timeline.addCues ranges startTime endTime).2 = false ↔
      ∃ r ∈ ranges, Timeline.intersection r.1 r.2 startTime endTime /
        (endTime - startTime) > 1 / 2) ∧
    ((∀ r ∈ ranges, Timeline.intersection r.1 r.2 startTime endTime < 0) →
      Timeline.addCues ranges startTime endTime =
        (ranges ++ [(startTime, endTime)], true)) := by
  constructor
  · have hloop := Timeline.addCuesLoop_dropped_iff startTime endTime hst
      ranges.reverse
    simp only [List.mem_reverse] at hloop
    rw [← hloop]
    simp only [Timeline.addCues]
    cases hdd : (Timeline.addCuesLoop startTime endTime ranges.reverse).2.2
    · simp
      split <;> simp
    · simp
  · intro h
    have hloop := Timeline.addCuesLoop_no_overlap startTime endTime
      ranges.reverse (fun r hr => h r (List.mem_reverse.mp hr))
    simp [Timeline.addCues, hloop]

/-- C7, witness: an accepted range `[0, 1]` and a new disjoint cue range
`[5, 6]` — the cue is delivered and the range recorded. -/
theorem C7_addCues_amended_witness :
    ((Timeline.addCues [((0 : ℚ), 1)] 5 6).2 = false ↔
      ∃ r ∈ [((0 : ℚ), 1)], Timeline.intersection r.1 r.2 5 6 / (6 - 5) > 1 / 2) ∧
    ((∀ r ∈ [((0 : ℚ), 1)], Timeline.intersection r.1 r.2 5 6 < 0) →
      Timeline.addCues [((0 : ℚ), 1)] 5 6 = ([((0 : ℚ), 1), (5, 6)], true)) :=
  C7_addCues_amended [((0 : ℚ), 1)] 5 6 (by norm_num)

namespace Timeline

/-- State slice of `TimelineController` relevant to initial-PTS handling.
The source field is `private initPTS: Array<number> = []`; we model it as
`Option (List (Option ℚ))` so that `none` represents the field holding
the JavaScript value `undefined` (which is what
`typeof this.initPTS === 'undefined'` tests) and `some a` represents it
holding the (possibly sparse) array `a`.  `synthesised` records whether
the `initPTS = 90000` fallback of `onFragParsingInitSegment` ever ran. -/
structure TCState where
  initPTS : Option (List (Option ℚ))
  synthesised : Bool
deriving DecidableEq

/-- State after the class-field initialisers of the constructor:
`initPTS = []` (an array, not `undefined`). -/
def initialTC : TCState := ⟨some [], false⟩

/-- Sparse JavaScript array assignment `a[i] = v`. -/
def setAt (l : List (Option ℚ)) (i : ℕ) (v : ℚ) : List (Option ℚ) :=
  (l ++ List.replicate (i + 1 - l.length) none).set i (some v)

/-- Embedding of `onInitPtsFound` restricted to the `initPTS` slice: when
`id === 'main'`, store `initPTS[frag.cc] = initPTS`.  (The source would
throw if the field were `undefined`; that point is unreachable, and we
read it with default `[]`.) -/
def onInitPtsFound (st : TCState) (id : String) (cc : ℕ) (pts : ℚ) : TCState :=
  if id = "main" then
    { st with initPTS := some (setAt (st.initPTS.getD []) cc pts) }
  else st

/-- Embedding of `onManifestLoaded` restricted to the `initPTS` slice:
`this.initPTS = []`. -/
def tcOnManifestLoaded (st : TCState) : TCState := { st with initPTS := some [] }

/-- Embedding of `onFragParsingInitSegment`: iff
`typeof this.initPTS === 'undefined'`, call `onInitPtsFound` with a
sentinel fragment (`id = ''`, `cc = 0`) and `initPTS = 90000`. -/
def onFragParsingInitSegment (st : TCState) : TCState :=
  if st.initPTS = none then
    onInitPtsFound { st with synthesised := true } "" 0 90000
  else st

/-- Events that touch the `initPTS` field of a `TimelineController`. -/
inductive TCOp where
  | manifestLoaded
  | initPtsFound (id : String) (cc : ℕ) (pts : ℚ)
  | fragParsingInitSegment

/-- Dispatch one event against the `initPTS` state slice. -/
def stepTC (st : TCState) : TCOp → TCState
  | TCOp.manifestLoaded => tcOnManifestLoaded st
  | TCOp.initPtsFound id cc pts => onInitPtsFound st id cc pts
  | TCOp.fragParsingInitSegment => onFragParsingInitSegment st

/-- Run a sequence of events from the constructor's state. -/
def runTC (ops : List TCOp) : TCState := ops.foldl stepTC initialTC

theorem stepTC_preserves (st : TCState) (op : TCOp)
    (h : st.initPTS ≠ none ∧ st.synthesised = false) :
    (stepTC st op).initPTS ≠ none ∧ (stepTC st op).synthesised = false := by
  cases op with
  | manifestLoaded => exact ⟨by simp [stepTC, tcOnManifestLoaded], h.2⟩
  | initPtsFound id cc pts =>
    simp only [stepTC, onInitPtsFound]
    split
    · exact ⟨by simp, h.2⟩
    · exact h
  | fragParsingInitSegment =>
    simp only [stepTC, onFragParsingInitSegment, if_neg h.1]
    exact h

end Timeline

/-- C8: the synthesis of an initial PTS of 90000 never happens.  In every
state reachable from the constructor through any sequence of
`MANIFEST_LOADED`, `INIT_PTS_FOUND` and `FRAG_PARSING_INIT_SEGMENT`
events, the `initPTS` field holds an array (never `undefined`), so the
guard `typeof this.initPTS === 'undefined'` in
`onFragParsingInitSegment` is false and the fallback
`onInitPtsFound(..., initPTS = 90000)` is never invoked — contradicting
the claim (and the source's own comment) that a pure-audio stream with no
prior `INIT_PTS_FOUND` gets a synthesised `initPTS = 90000`. -/
theorem C8_initPTS_synthesis_never_fires (ops : List Timeline.TCOp) :
    (Timeline.runTC ops).initPTS ≠ none ∧
    (Timeline.runTC ops).synthesised = false := by
  suffices h : ∀ st : Timeline.TCState,
      st.initPTS ≠ none ∧ st.synthesised = false →
      (ops.foldl Timeline.stepTC st).initPTS ≠ none ∧
      (ops.foldl Timeline.stepTC st).synthesised = false by
    exact h Timeline.initialTC ⟨by simp [Timeline.initialTC], rfl⟩
  induction ops with
  | nil => exact fun st h => h
  | cons op rest ih =>
    intro st h
    exact ih _ (Timeline.stepTC_preserves st op h)

namespace Timeline

/-- Channel lists built by `extractCea608Data` are sequences of byte
pairs pushed two at a time, where no pushed pair has both bytes zero. -/
inductive PairedNonZero : List ℕ → Prop
  | nil : PairedNonZero []
  | cons (a b : ℕ) (rest : List ℕ) : ¬(a = 0 ∧ b = 0) → PairedNonZero rest →
      PairedNonZero (a :: b :: rest)

theorem PairedNonZero.append_pair {l : List ℕ} (h : PairedNonZero l)
    (a b : ℕ) (hab : ¬(a = 0 ∧ b = 0)) : PairedNonZero (l ++ [a, b]) := by
  induction h with
  | nil => exact PairedNonZero.cons a b [] hab PairedNonZero.nil
  | cons x y rest hxy _ ih => exact PairedNonZero.cons x y _ hxy ih

/-- JavaScript `actualCCBytes[ccType].push(x); actualCCBytes[ccType].push(y)`:
replace element `i` by itself with `[a, b]` appended. -/
def pushPair (l : List (List ℕ)) (i a b : ℕ) : List (List ℕ) :=
  l.set i (l.getD i [] ++ [a, b])

/-- Embedding of the `for (let j = 0; j < count; j++)` loop of
`extractCea608Data`; the three `byteArray[position++]` reads return
`Option` so an out-of-bounds read yields `none` for the whole run. -/
def extractLoop (bytes : List ℕ) : ℕ → ℕ → List (List ℕ) →
    Option (List (List ℕ))
  | 0, _, acc => some acc
  | j + 1, position, acc =>
    match bytes[position]?, bytes[position + 1]?, bytes[position + 2]? with
    | some tmpByte, some r1, some r2 =>
      let ccbyte1 := 0x7F &&& r1
      let ccbyte2 := 0x7F &&& r2
      let ccValid := (4 &&& tmpByte) ≠ 0
      let ccType := 3 &&& tmpByte
      let acc' :=
        if ccbyte1 = 0 ∧ ccbyte2 = 0 then acc
        else if ccValid then
          if ccType = 0 ∨ ccType = 1 then pushPair acc ccType ccbyte1 ccbyte2
          else acc
        else acc
      extractLoop bytes j (position + 3) acc'
    | _, _, _ => none

/-- Embedding of `TimelineController.extractCea608Data`:
`count = byteArray[0] & 31`, start at `position = 2`, initial
`actualCCBytes = [[], []]`. -/
def extractCea608Data (bytes : List ℕ) : Option (List (List ℕ)) :=
  match bytes[0]? with
  | none => none
  | some b0 => extractLoop bytes (b0 &&& 31) 2 [[], []]

/-- Invariant carried through `extractLoop`: two channels, all collected
bytes masked to 7 bits, pairs never both zero. -/
def CCInv (acc : List (List ℕ)) : Prop :=
  acc.length = 2 ∧ ∀ ch ∈ acc, (∀ x ∈ ch, x ≤ 0x7F) ∧ PairedNonZero ch

theorem pushPair_inv (acc : List (List ℕ)) (i a b : ℕ)
    (hinv : CCInv acc) (hi : i < 2) (ha : a ≤ 0x7F) (hb : b ≤ 0x7F)
    (hab : ¬(a = 0 ∧ b = 0)) : CCInv (pushPair acc i a b) := by
  obtain ⟨hlen, hch⟩ := hinv
  refine ⟨by simp [pushPair, hlen], ?_⟩
  intro ch hmem
  rcases List.mem_or_eq_of_mem_set hmem with hmem' | rfl
  · exact hch ch hmem'
  · have hilen : i < acc.length := by omega
    have hbase : acc.getD i [] ∈ acc := by
      rw [List.getD_eq_getElem acc [] hilen]
      exact List.getElem_mem hilen
    obtain ⟨hle, hpairs⟩ := hch _ hbase
    refine ⟨?_, hpairs.append_pair a b hab⟩
    intro x hx
    rcases List.mem_append.mp hx with hx' | hx'
    · exact hle x hx'
    · rcases List.mem_cons.mp hx' with rfl | hx''
      · exact ha
      · simp only [List.mem_singleton] at hx''
        subst hx''
        exact hb

theorem extractLoop_ok (bytes : List ℕ) (j : ℕ) :
    ∀ (position : ℕ) (acc : List (List ℕ)),
    position + 3 * j ≤ bytes.length → CCInv acc →
    ∃ out, extractLoop bytes j position acc = some out ∧ CCInv out := by
  induction j with
  | zero => exact fun position acc _ hinv => ⟨acc, rfl, hinv⟩
  | succ j ih =>
    intro position acc hlen hinv
    have h0 : position < bytes.length := by omega
    have h1 : position + 1 < bytes.length := by omega
    have h2 : position + 2 < bytes.length := by omega
    rw [extractLoop, List.getElem?_eq_getElem h0, List.getElem?_eq_getElem h1,
      List.getElem?_eq_getElem h2]
    simp only
    apply ih
    · omega
    · -- the updated accumulator still satisfies the invariant
      split
      · exact hinv
      · split
        · split
          · rename_i hnz _ hty
            refine pushPair_inv acc _ _ _ hinv ?_ ?_ ?_ hnz
            · rcases hty with h | h <;> omega
            · exact Nat.and_le_left
            · exact Nat.and_le_left
          · exact hinv
        · exact hinv

end Timeline

/-- C10: for every byte array of length at least
`2 + 3·(byteArray[0] & 0x1F)`, `extractCea608Data` performs no
out-of-bounds read (the `Option`-indexed embedding returns `some`),
returns exactly two channel lists, every collected byte is at most
`0x7F`, and the bytes of each channel form pairs of which none has both
members zero. -/
theorem C10_extractCea608Data_safe (bytes : List ℕ) (b0 : ℕ)
    (h0 : bytes[0]? = some b0)
    (hlen : 2 + 3 * (b0 &&& 31) ≤ bytes.length) :
    ∃ out, Timeline.extractCea608Data bytes = some out ∧
      out.length = 2 ∧
      (∀ ch ∈ out, (∀ x ∈ ch, x ≤ 0x7F) ∧ Timeline.PairedNonZero ch) := by
  obtain ⟨out, hout, hlen2, hch⟩ :=
    Timeline.extractLoop_ok bytes (b0 &&& 31) 2 [[], []] hlen
      ⟨rfl, by
        intro ch hch
        rcases List.mem_cons.mp hch with rfl | hch'
        · exact ⟨by simp, Timeline.PairedNonZero.nil⟩
        · rcases List.mem_singleton.mp hch' with rfl
          exact ⟨by simp, Timeline.PairedNonZero.nil⟩⟩
  refine ⟨out, ?_, hlen2, hch⟩
  rw [Timeline.extractCea608Data, h0]
  exact hout

/-- C10, witness: a five-byte payload with `count = 1` carrying one valid
field-0 pair. -/
theorem C10_extractCea608Data_safe_witness :
    ∃ out, Timeline.extractCea608Data [1, 0, 4, 65, 66] = some out ∧
      out.length = 2 ∧
      (∀ ch ∈ out, (∀ x ∈ ch, x ≤ 0x7F) ∧ Timeline.PairedNonZero ch) :=
  C10_extractCea608Data_safe [1, 0, 4, 65, 66] 1 rfl (by norm_num)

/-! ## LevelDetails (src/unnamed/part_003)

The constructor runs
`baseUrl.match(/_HLS_msn=(\d+)(.+_HLS_part=(\d+))?.+_HLS_push=1/)` and
assigns `this.push` only when `params.length === 3`.  A successful
JavaScript `String.prototype.match` with a non-global regex always
returns an array of length `1 + (number of capture groups)` — here
`1 + 3 = 4`, whether or not the optional group participated.  We embed
the match as a record with one slot per group (full match plus three
capture groups, so the match-array length is 4 by construction; group
extents follow a first-occurrence reading of the greedy engine, which is
irrelevant to the length). -/

namespace Details

/-- Split a character list at the first occurrence of `pat`, returning
the part before the occurrence and the part after it. -/
def splitFirst (pat : List Char) : List Char → Option (List Char × List Char)
  | [] => if pat.isEmpty then some ([], []) else none
  | c :: rest =>
    if pat.isPrefixOf (c :: rest) then some ([], (c :: rest).drop pat.length)
    else
      match splitFirst pat rest with
      | some (pre, post) => some (c :: pre, post)
      | none => none

/-- Match array of the regex
`/_HLS_msn=(\d+)(.+_HLS_part=(\d+))?.+_HLS_push=1/`: slot 0 is the full
match, slots 1–3 the capture groups (`none` = the optional group did not
participate).  A JavaScript match array always has all four slots. -/
structure HlsPushGroups where
  full : List Char
  msn : List Char
  optGroup : Option (List Char)
  partDigits : Option (List Char)
deriving DecidableEq

/-- Length of the JavaScript match array: `1 + 3` capture groups,
independent of whether the optional group participated. -/
def jsMatchLength (_ : HlsPushGroups) : ℕ := 4

/-- Matches `.+_HLS_push=1` against `l` (at least one character, then the
literal); returns the suffix after the literal. -/
def pushTail (l : List Char) : Option (List Char) :=
  match l with
  | [] => none
  | _ :: tl => (splitFirst "_HLS_push=1".data tl).map (fun p => p.2)

/-- Embedding of the regex match: `some groups` iff the pattern matches
`s`. -/
def hlsPushMatch (s : List Char) : Option HlsPushGroups :=
  match splitFirst "_HLS_msn=".data s with
  | none => none
  | some (pre1, rest) =>
    let ds := rest.takeWhile Char.isDigit
    if ds.isEmpty then none
    else
      let rest2 := rest.drop ds.length
      -- optional group `(.+_HLS_part=(\d+))?` followed by `.+_HLS_push=1`
      let withPart : Option ((List Char × List Char) × List Char) :=
        match rest2 with
        | [] => none
        | c2 :: tl2 =>
          match splitFirst "_HLS_part=".data tl2 with
          | none => none
          | some (pre3, rest3) =>
            let ds3 := rest3.takeWhile Char.isDigit
            if ds3.isEmpty then none
            else
              match pushTail (rest3.drop ds3.length) with
              | none => none
              | some post =>
                some ((c2 :: pre3 ++ "_HLS_part=".data ++ ds3, ds3), post)
      match withPart with
      | some ((g2, g3), post) =>
        let fullLen := s.length - pre1.length - post.length
        some ⟨(s.drop pre1.length).take fullLen, ds, some g2, some g3⟩
      | none =>
        match pushTail rest2 with
        | none => none
        | some post =>
          let fullLen := s.length - pre1.length - post.length
          some ⟨(s.drop pre1.length).take fullLen, ds, none, none⟩

/-- Decimal digits to a natural number. -/
def digitsToNat (ds : List Char) : ℕ :=
  ds.foldl (fun acc c => 10 * acc + (c.toNat - 48)) 0

/-- JavaScript `parseInt` on a string: leading decimal digits, `none`
for `NaN`. -/
def parseIntJs (s : List Char) : Option ℕ :=
  let ds := s.takeWhile Char.isDigit
  if ds.isEmpty then none else some (digitsToNat ds)

/-- The `push` field value `{ msn, part }` (components `none` = `NaN`). -/
structure Push where
  msn : Option ℕ
  part : Option ℕ
deriving DecidableEq

/-- Embedding of the `LevelDetails` constructor restricted to the fields
it assigns: `push` (guarded by `params && params.length === 3`) and
`url = baseUrl`.  `parseInt(params[2])` reads the optional group's slot
(`undefined` when it did not participate, giving `NaN`). -/
def levelDetailsCtor (baseUrl : String) : Option Push × String :=
  let push :=
    match hlsPushMatch baseUrl.data with
    | some params =>
      if jsMatchLength params = 3 then
        some ⟨parseIntJs params.msn, params.optGroup.bind parseIntJs⟩
      else none
    | none => none
  (push, baseUrl)

end Details

/-- C9: `LevelDetails.push` is never assigned, for any base URL — the
guard compares the JavaScript match-array length (always `1 + 3 = 4` for
this regex) against 3 — including URLs that do embed
`_HLS_msn=<N>`, `_HLS_part=<M>` and `_HLS_push=1` (on which the regex
does match, as the paired closed fact shows). -/
theorem C9_push_never_set :
    (∀ baseUrl : String, (Details.levelDetailsCtor baseUrl).1 = none) ∧
    (Details.hlsPushMatch
      "https://x/p.m3u8?_HLS_msn=5&_HLS_part=2&_HLS_push=1".data).isSome = true ∧
    (Details.levelDetailsCtor
      "https://x/p.m3u8?_HLS_msn=5&_HLS_part=2&_HLS_push=1").1 = none := by
  refine ⟨?_, by decide, by decide⟩
  intro baseUrl
  simp only [Details.levelDetailsCtor]
  match Details.hlsPushMatch baseUrl.data with
  | some params => simp [Details.jsMatchLength]
  | none => rfl

/-! ## LevelController (src/src/controller/level-controller.ts)

State is the controller's private fields; event emissions and timer
arming are returned as data.  `urlId` is `ℤ` because
`onAudioTrackSwitched` can write `-1` into it.  The codec-support
predicate (`isCodecSupportedInMp4`, a MediaSource capability probe) and
`computeReloadInterval` (level-helper) are external inputs and enter as
parameters. -/

namespace LevelCtrl

structure ServerControl where
  canBlock : Bool
  canSkipUntil : ℚ
deriving DecidableEq

/-- Fragment slice used by the controller: only `level` is rewritten. -/
structure Frag where
  level : ℕ
deriving DecidableEq

/-- LevelDetails slice consulted by the controller. -/
structure Details where
  live : Bool
  endSN : ℤ
  url : String
  updated : Option Bool
  availabilityDelay : Option ℚ
  serverControl : Option ServerControl
  partTarget : Option ℚ
  fragments : List Frag
deriving DecidableEq

structure Level where
  bitrate : ℕ
  url : List String
  urlId : ℤ
  audioCodec : Option String
  videoCodec : Option String
  audioGroupIds : Option (List String)
  textGroupIds : Option (List String)
  details : Option Details
  loadError : ℕ
  fragmentError : Bool
deriving DecidableEq

/-- A parsed manifest entry (`LevelParsed`): `attrAudio`/`attrSubtitles`
are the `AUDIO`/`SUBTITLES` attributes. -/
structure LevelParsed where
  bitrate : ℕ
  url : String
  audioCodec : Option String
  videoCodec : Option String
  attrAudio : Option String
  attrSubtitles : Option String
deriving DecidableEq

/-- Modelled from the spec: `new Level(levelParsed)` (types/level.ts is
not among the covered sources).  Spec §3: `url` is the ordered sequence
of redundant URIs seeded with the parsed entry's url (size ≥ 1), `urlId`
an index into it, group-id sets initially absent, error counters zero,
no details yet. -/
def Level.ofParsed (p : LevelParsed) : Level :=
  { bitrate := p.bitrate, url := [p.url], urlId := 0,
    audioCodec := p.audioCodec, videoCodec := p.videoCodec,
    audioGroupIds := none, textGroupIds := none, details := none,
    loadError := 0, fragmentError := false }

/-- Modelled from the spec: `addGroupId(level, 'audio', id)`
(level-helper.ts is not among the covered sources).  Spec §4.3.1:
"attach audio/text group identifiers from HLS attributes"; the helper
creates the collection on first use and appends. -/
def addGroupIdAudio (lv : Level) (id : String) : Level :=
  { lv with audioGroupIds := some (lv.audioGroupIds.getD [] ++ [id]) }

/-- Modelled from the spec: `addGroupId(level, 'text', id)`. -/
def addGroupIdText (lv : Level) (id : String) : Level :=
  { lv with textGroupIds := some (lv.textGroupIds.getD [] ++ [id]) }

/-- The `if (attributes)` block of the manifest-admission loop, applied
to `levelFromSet`. -/
def applyAttrs (lv : Level) (p : LevelParsed) : Level :=
  let lv := match p.attrAudio with
    | some g => addGroupIdAudio lv g
    | none => lv
  match p.attrSubtitles with
  | some g => addGroupIdText lv g
  | none => lv

/-- Fold state of the manifest-admission loop. -/
structure ParseAcc where
  levels : List Level
  videoCodecFound : Bool
  audioCodecFound : Bool
deriving DecidableEq

/-- One iteration of `data.levels.forEach` in `onManifestLoaded`:
record codec presence, apply the Chrome/Firefox `mp4a.40.34` erasure,
group by bitrate (`levelSet`), and attach group ids. -/
def stepParsed (chromeOrFirefox : Bool) (acc : ParseAcc) (p0 : LevelParsed) :
    ParseAcc :=
  let videoCodecFound := acc.videoCodecFound || p0.videoCodec.isSome
  let audioCodecFound := acc.audioCodecFound || p0.audioCodec.isSome
  let p :=
    if chromeOrFirefox && (match p0.audioCodec with
        | some c => (Details.splitFirst "mp4a.40.34".data c.data).isSome
        | none => false) then
      { p0 with audioCodec := none }
    else p0
  let audioCodecFound := audioCodecFound || p.attrAudio.isSome
  if acc.levels.any (fun lv => lv.bitrate = p.bitrate) then
    { levels := acc.levels.map (fun lv =>
        if lv.bitrate = p.bitrate then
          applyAttrs { lv with url := lv.url ++ [p.url] } p
        else lv),
      videoCodecFound := videoCodecFound, audioCodecFound := audioCodecFound }
  else
    { levels := acc.levels ++ [applyAttrs (Level.ofParsed p) p],
      videoCodecFound := videoCodecFound, audioCodecFound := audioCodecFound }

/-- The grouping loop of `onManifestLoaded` over all parsed entries. -/
def groupLevels (chromeOrFirefox : Bool) (parsed : List LevelParsed) :
    ParseAcc :=
  parsed.foldl (stepParsed chromeOrFirefox) ⟨[], false, false⟩

/-- The two filters of `onManifestLoaded`: drop audio-only levels when
both codec kinds were signalled, then keep only levels whose declared
codecs the sink supports (`isCodecSupportedInMp4` enters as the
predicates `supportedAudio`/`supportedVideo`). -/
def filteredLevels (chromeOrFirefox : Bool)
    (supportedAudio supportedVideo : String → Bool)
    (parsed : List LevelParsed) : List Level :=
  let acc := groupLevels chromeOrFirefox parsed
  let levels :=
    if acc.videoCodecFound && acc.audioCodecFound then
      acc.levels.filter (fun lv => lv.videoCodec.isSome)
    else acc.levels
  levels.filter (fun lv =>
    (match lv.audioCodec with
      | none => true
      | some c => supportedAudio c) &&
    (match lv.videoCodec with
      | none => true
      | some c => supportedVideo c))

/-- Insertion step of the bitrate sort. -/
def insertByBitrate (lv : Level) : List Level → List Level
  | [] => [lv]
  | x :: xs =>
    if x.bitrate ≤ lv.bitrate then x :: insertByBitrate lv xs
    else lv :: x :: xs

/-- Model of `levels.sort((a, b) => a.bitrate - b.bitrate)` (a stable
ascending sort; the levels being sorted have pairwise distinct bitrates,
so any correct sort yields the same list). -/
def sortByBitrate : List Level → List Level
  | [] => []
  | x :: xs => insertByBitrate x (sortByBitrate xs)

/-- The emitted `levels` array: surviving levels sorted by bitrate. -/
def sortedLevels (chromeOrFirefox : Bool)
    (supportedAudio supportedVideo : String → Bool)
    (parsed : List LevelParsed) : List Level :=
  sortByBitrate (filteredLevels chromeOrFirefox supportedAudio supportedVideo parsed)

/-- Tail of `onManifestLoaded` in the `levels.length > 0` case:
`bitrateStart = levels[0].bitrate` (of the filtered, unsorted list),
then `_firstLevel` is the first index in the sorted array with that
bitrate; `none` models the fatal `MANIFEST_INCOMPATIBLE_CODECS_ERROR`
emission when nothing survives. -/
def onManifestLoaded (chromeOrFirefox : Bool)
    (supportedAudio supportedVideo : String → Bool)
    (parsed : List LevelParsed) : Option (List Level × ℕ) :=
  match (filteredLevels chromeOrFirefox supportedAudio supportedVideo parsed).head? with
  | none => none
  | some l0 =>
    let sorted := sortedLevels chromeOrFirefox supportedAudio supportedVideo parsed
    some (sorted, sorted.findIdx (fun lv => lv.bitrate = l0.bitrate))

structure Config where
  levelLoadingMaxRetry : ℕ
  levelLoadingRetryDelay : ℕ
  levelLoadingMaxRetryTimeout : ℕ
deriving DecidableEq

/-- LevelController private fields touched by the modelled handlers.
`timer` holds the delay (ms) of the armed reload, `none` when cleared. -/
structure CtrlState where
  levels : List Level
  currentLevelIndex : Option ℕ
  levelRetryCount : ℕ
  timer : Option ℕ
  manualLevelIndex : ℤ
  canLoad : Bool
  currentSn : ℤ
  currentPart : ℤ
deriving DecidableEq

/-- Mutations `recoverLevel` performs on the error event it receives. -/
structure RecoverOut where
  levelRetry : Bool
  fatal : Bool
deriving DecidableEq

/-- Embedding of `LevelController.recoverLevel`: `none` models the
TypeError the source would hit when `levels[levelIndex]` is undefined.
JavaScript `%` on the nonnegative `urlId + 1` is `Int.tmod`. -/
def recoverLevel (cfg : Config) (st : CtrlState) (levelIndex : ℕ)
    (levelError fragmentError : Bool) : Option (CtrlState × RecoverOut) :=
  match st.levels[levelIndex]? with
  | none => none
  | some level0 =>
    let level := { level0 with loadError := level0.loadError + 1,
                               fragmentError := fragmentError }
    if levelError ∧ cfg.levelLoadingMaxRetry < st.levelRetryCount + 1 then
      some ({ st with levels := st.levels.set levelIndex level,
                      currentLevelIndex := none, timer := none },
            { levelRetry := false, fatal := true })
    else
      let st1 :=
        if levelError then
          { st with
            timer := some (min (2 ^ st.levelRetryCount * cfg.levelLoadingRetryDelay)
              cfg.levelLoadingMaxRetryTimeout),
            levelRetryCount := st.levelRetryCount + 1 }
        else st
      let levelRetry := levelError
      let (level2, st2) :=
        if levelError ∨ fragmentError then
          if 1 < level.url.length ∧ level.loadError < level.url.length then
            ({ level with urlId := Int.tmod (level.urlId + 1) level.url.length,
                          details := none }, st1)
          else if st1.manualLevelIndex = -1 then
            let nextLevel :=
              if levelIndex = 0 then st1.levels.length - 1 else levelIndex - 1
            (level, { st1 with currentLevelIndex := some nextLevel })
          else if fragmentError then
            (level, { st1 with currentLevelIndex := none })
          else (level, st1)
        else (level, st1)
      some ({ st2 with levels := st2.levels.set levelIndex level2 },
            { levelRetry := levelRetry, fatal := false })

/-- Embedding of `startLoad` (the timer-accelerated `loadLevel` call only
emits an event). -/
def startLoad (st : CtrlState) : CtrlState :=
  { st with
      canLoad := true,
      levelRetryCount := 0,
      levels := st.levels.map (fun lv =>
        { lv with
            loadError := 0,
            details := match lv.details with
              | some d => if d.live then none else some d
              | none => none }) }

/-- Embedding of `onAudioTrackSwitched`: `audioGroupId` is the switched
track's group id.  The `for` loop leaves `urlId = -1` when no entry of
`audioGroupIds` matches. -/
def onAudioTrackSwitched (st : CtrlState) (audioGroupId : String) : CtrlState :=
  match st.currentLevelIndex with
  | none => st
  | some idx =>
    match st.levels[idx]? with
    | none => st
    | some currentLevel =>
      match currentLevel.audioGroupIds with
      | none => st
      | some gids =>
        let urlId : ℤ :=
          if gids.any (· == audioGroupId) then
            ((gids.findIdx (· == audioGroupId) : ℕ) : ℤ)
          else -1
        if urlId ≠ currentLevel.urlId then
          let st' :=
            { st with levels := st.levels.set idx { currentLevel with urlId := urlId } }
          startLoad st'
        else st

/-- The `.map` tail of `removeLevel`: rewrite the fragments' `level`
field to the level's new index. -/
def reindexFrags (i : ℕ) (lv : Level) : Level :=
  match lv.details with
  | some d =>
    let d' := { d with fragments := d.fragments.map (fun f => { f with level := i }) }
    { lv with details := some d' }
  | none => lv

/-- Embedding of `removeLevel(levelIndex, urlId)`.  The inner
`level.url.filter((url, id) => id !== urlId)` is `List.eraseIdx`. -/
def removeLevel (st : CtrlState) (levelIndex : ℕ) (urlId : Option ℕ) :
    CtrlState :=
  let levels := st.levels.enum.filterMap (fun iu =>
    if iu.1 ≠ levelIndex then some iu.2
    else if 1 < iu.2.url.length ∧ urlId.isSome then
      some { iu.2 with url := iu.2.url.eraseIdx (urlId.getD 0), urlId := 0 }
    else none)
  let levels := levels.enum.map (fun iu => reindexFrags iu.1 iu.2)
  { st with levels := levels }

end LevelCtrl

namespace LevelCtrl

/-- Which reload the tail of `onLevelLoaded` arms. -/
inductive Armed where
  | lowLatency (delay : ℕ)
  | regular (delay : ℕ)
  | cleared
deriving DecidableEq

/-- Embedding of `onLevelLoaded`.  `r` is the external
`computeReloadInterval(details, data.stats)` value (ms); the result is
the new controller state, the (mutated) incoming details, and the timer
action (`none` when the event is filtered out as stale); the outer
`none` models the TypeError on an undefined `levels[level]`.  The
`partTarget` truthiness test is `present and nonzero`. -/
def onLevelLoaded (st : CtrlState) (level : ℕ) (details : Details) (r : ℕ) :
    Option (CtrlState × Details × Option Armed) :=
  if st.currentLevelIndex ≠ some level then some (st, details, none)
  else
    match st.levels[level]? with
    | none => none
    | some curLevel =>
      let st :=
        if ¬curLevel.fragmentError then
          { st with
              levels := st.levels.set level { curLevel with loadError := 0 },
              levelRetryCount := 0 }
        else st
      if details.live then
        let curDetails := curLevel.details
        let details := { details with availabilityDelay := curDetails.bind (·.availabilityDelay) }
        if details.serverControl.isSome &&
            (match details.partTarget with
              | some v => v ≠ 0
              | none => false) then
          let upd : Bool :=
            match curDetails with
            | none => true
            | some cd => details.endSN ≠ cd.endSN
          let details := { details with updated := some upd }
          if (match details.serverControl with
              | some sc => sc.canBlock
              | none => false) then
            let reloadInterval := max (r - 100) 100
            some ({ st with timer := some reloadInterval }, details,
              some (Armed.lowLatency reloadInterval))
          else
            some ({ st with timer := some r }, details, some (Armed.regular r))
        else
          let upd : Bool :=
            match curDetails with
            | none => true
            | some cd => details.endSN ≠ cd.endSN ∨ details.url ≠ cd.url
          let details := { details with updated := some upd }
          some ({ st with timer := some r }, details, some (Armed.regular r))
      else
        some ({ st with timer := none }, details, some Armed.cleared)

/-- Model of `url.split('?')[0]`. -/
def stripQuery (s : String) : String := String.mk (s.data.takeWhile (· ≠ '?'))

/-- Embedding of `loadLowLatencyLevel`: returns the new state and the
request URL passed to `LEVEL_LOADING` (`none` when `canLoad` is false and
nothing is emitted); the outer `none` models the thrown
`'Low-latency HLS requires SERVER-CONTROL details'`.  (The computed
`advancePartLimit` and `currentPart` feed only commented-out part
advancement.) -/
def loadLowLatencyLevel (st : CtrlState) (details : Details) :
    Option (CtrlState × Option String) :=
  if st.canLoad then
    match details.serverControl with
    | none => none
    | some _sc =>
      let requestUrl := stripQuery details.url
      let currentSn := if st.currentSn = -1 then details.endSN else st.currentSn
      let currentPart := if st.currentPart = -1 then 0 else st.currentPart
      let msn := if details.updated = some true then currentSn + 1 else currentSn
      let currentSn2 := if details.updated = some true then msn else currentSn
      let requestUrl := requestUrl ++ "?_HLS_msn=" ++ toString msn
      some ({ st with currentSn := currentSn2, currentPart := currentPart },
        some requestUrl)
  else some (st, none)

end LevelCtrl

namespace LevelCtrl

/-- Retry policy of scenario S3: `levelLoadingMaxRetry = 3`,
`levelLoadingRetryDelay = 1000`, `levelLoadingMaxRetryTimeout = 8000`. -/
def cfgS3 : Config := ⟨3, 1000, 8000⟩

/-- A plain single-URL level for the retry scenario. -/
def lvS3 : Level :=
  ⟨500000, ["https://a/l.m3u8"], 0, none, none, none, none, none, 0, false⟩

/-- Controller state at the start of the retry scenario (pinned manual
level so the redundant-escalation tail leaves the index alone). -/
def stS3 : CtrlState := ⟨[lvS3], some 0, 0, none, 0, true, -1, -1⟩

/-- One level-scoped error fed through `recoverLevel` (scenario S3). -/
def stepS3 (p : Option (CtrlState × RecoverOut)) :
    Option (CtrlState × RecoverOut) :=
  p.bind (fun q => recoverLevel cfgS3 q.1 0 true false)

/-- Observation of a scenario step: armed delay, `levelRetry`, `fatal`. -/
def viewS3 (p : Option (CtrlState × RecoverOut)) :
    Option (Option ℕ × Bool × Bool) :=
  p.map (fun q => (q.1.timer, q.2.levelRetry, q.2.fatal))

end LevelCtrl

/-- C4: for a level-scoped non-fatal error with current retry count `k`:
if `k + 1 ≤ levelLoadingMaxRetry`, a reload is armed after
`min(2^k · levelLoadingRetryDelay, levelLoadingMaxRetryTimeout)` ms,
`levelRetry` is set, and the count becomes `k + 1`; otherwise the event
is promoted to fatal, the current level index is cleared and the timer
cleared.  With maxRetry 3, delay 1000, cap 8000, consecutive errors arm
1000, 2000, 4000 ms and the fourth occurrence is fatal. -/
theorem C4_recoverLevel_backoff (cfg : LevelCtrl.Config)
    (st : LevelCtrl.CtrlState) (levelIndex : ℕ) (fragmentError : Bool)
    (lv : LevelCtrl.Level) (hlv : st.levels[levelIndex]? = some lv) :
    (st.levelRetryCount + 1 ≤ cfg.levelLoadingMaxRetry →
      ∃ st' out,
        LevelCtrl.recoverLevel cfg st levelIndex true fragmentError =
          some (st', out) ∧
        st'.timer = some (min (2 ^ st.levelRetryCount * cfg.levelLoadingRetryDelay)
          cfg.levelLoadingMaxRetryTimeout) ∧
        st'.levelRetryCount = st.levelRetryCount + 1 ∧
        out.levelRetry = true ∧ out.fatal = false) ∧
    (cfg.levelLoadingMaxRetry < st.levelRetryCount + 1 →
      ∃ st' out,
        LevelCtrl.recoverLevel cfg st levelIndex true fragmentError =
          some (st', out) ∧
        out.fatal = true ∧ st'.currentLevelIndex = none ∧ st'.timer = none) ∧
    (LevelCtrl.viewS3 (LevelCtrl.stepS3 (some (LevelCtrl.stS3, ⟨false, false⟩))) =
        some (some 1000, true, false) ∧
      LevelCtrl.viewS3 (LevelCtrl.stepS3 (LevelCtrl.stepS3
          (some (LevelCtrl.stS3, ⟨false, false⟩)))) =
        some (some 2000, true, false) ∧
      LevelCtrl.viewS3 (LevelCtrl.stepS3 (LevelCtrl.stepS3 (LevelCtrl.stepS3
          (some (LevelCtrl.stS3, ⟨false, false⟩))))) =
        some (some 4000, true, false) ∧
      LevelCtrl.viewS3 (LevelCtrl.stepS3 (LevelCtrl.stepS3 (LevelCtrl.stepS3
          (LevelCtrl.stepS3 (some (LevelCtrl.stS3, ⟨false, false⟩)))))) =
        some (none, false, true)) := by
  refine ⟨?_, ?_, by decide⟩
  · intro hk
    have hcond : ¬(True ∧ cfg.levelLoadingMaxRetry < st.levelRetryCount + 1) := by
      simp [not_lt.mpr hk]
    simp only [LevelCtrl.recoverLevel, hlv]
    rw [if_neg (by simpa using hcond)]
    refine ⟨_, _, rfl, ?_⟩
    simp only [if_pos trivial]
    repeat' split
    all_goals simp
  · intro hk
    simp only [LevelCtrl.recoverLevel, hlv]
    rw [if_pos ⟨trivial, hk⟩]
    exact ⟨_, _, rfl, rfl, rfl, rfl⟩

/-- C4, witness at the scenario S3 state (retry count 0, maxRetry 3). -/
theorem C4_recoverLevel_backoff_witness :
    (LevelCtrl.stS3.levelRetryCount + 1 ≤ LevelCtrl.cfgS3.levelLoadingMaxRetry →
      ∃ st' out,
        LevelCtrl.recoverLevel LevelCtrl.cfgS3 LevelCtrl.stS3 0 true false =
          some (st', out) ∧
        st'.timer = some (min (2 ^ LevelCtrl.stS3.levelRetryCount *
            LevelCtrl.cfgS3.levelLoadingRetryDelay)
          LevelCtrl.cfgS3.levelLoadingMaxRetryTimeout) ∧
        st'.levelRetryCount = LevelCtrl.stS3.levelRetryCount + 1 ∧
        out.levelRetry = true ∧ out.fatal = false) ∧
    (LevelCtrl.cfgS3.levelLoadingMaxRetry < LevelCtrl.stS3.levelRetryCount + 1 →
      ∃ st' out,
        LevelCtrl.recoverLevel LevelCtrl.cfgS3 LevelCtrl.stS3 0 true false =
          some (st', out) ∧
        out.fatal = true ∧ st'.currentLevelIndex = none ∧ st'.timer = none) ∧
    (LevelCtrl.viewS3 (LevelCtrl.stepS3 (some (LevelCtrl.stS3, ⟨false, false⟩))) =
        some (some 1000, true, false) ∧
      LevelCtrl.viewS3 (LevelCtrl.stepS3 (LevelCtrl.stepS3
          (some (LevelCtrl.stS3, ⟨false, false⟩)))) =
        some (some 2000, true, false) ∧
      LevelCtrl.viewS3 (LevelCtrl.stepS3 (LevelCtrl.stepS3 (LevelCtrl.stepS3
          (some (LevelCtrl.stS3, ⟨false, false⟩))))) =
        some (some 4000, true, false) ∧
      LevelCtrl.viewS3 (LevelCtrl.stepS3 (LevelCtrl.stepS3 (LevelCtrl.stepS3
          (LevelCtrl.stepS3 (some (LevelCtrl.stS3, ⟨false, false⟩)))))) =
        some (none, false, true)) :=
  C4_recoverLevel_backoff LevelCtrl.cfgS3 LevelCtrl.stS3 0 false LevelCtrl.lvS3 rfl

namespace LevelCtrl

/-- LL-HLS server control for the S7 scenario (`canBlock`). -/
def scEx : ServerControl := ⟨true, 0⟩

/-- Live details of the S7 scenario: `endSN = 42`, `updated = true`,
blocking server control, a part target, and a URL with a query. -/
def detailsEx : Details :=
  ⟨true, 42, "https://e/ll.m3u8?old=1", some true, none, some scEx, some 1, []⟩

/-- Current level of the S7 scenario. -/
def lvEx : Level :=
  ⟨500000, ["https://e/ll.m3u8"], 0, none, none, none, none, none, 0, false⟩

/-- Controller state of the S7 scenario: first low-latency reload
(`currentSn = -1`), loading enabled. -/
def stEx : CtrlState := ⟨[lvEx], some 0, 0, none, -1, true, -1, -1⟩

end LevelCtrl

/-- C6: when a live `LEVEL_LOADED` for the current level carries
`serverControl.canBlock` and a (nonzero) `partTarget`, a low-latency
reload is armed with delay `max(reloadInterval − 100, 100)` ms; the
loader's request URL is the details URL stripped of its query plus
`?_HLS_msn=<N>` with `N = (currentSn, seeded with endSN on the first
reload) + (1 iff updated)`, and `currentSn` advances to `N` exactly on
updated reloads; concretely, the first reload after `updated = true`,
`endSN = 42` requests `?_HLS_msn=43` and the timer delay for
`reloadInterval = 1000` is 900. -/
theorem C6_lowLatency_reload (st : LevelCtrl.CtrlState) (level : ℕ)
    (details : LevelCtrl.Details) (r : ℕ) (curLevel : LevelCtrl.Level)
    (sc : LevelCtrl.ServerControl) (pt : ℚ)
    (hcur : st.currentLevelIndex = some level)
    (hlv : st.levels[level]? = some curLevel)
    (hlive : details.live = true)
    (hsc : details.serverControl = some sc)
    (hblock : sc.canBlock = true)
    (hpt : details.partTarget = some pt) (hpt0 : pt ≠ 0)
    (hcan : st.canLoad = true) :
    (∃ st' d', LevelCtrl.onLevelLoaded st level details r =
        some (st', d', some (LevelCtrl.Armed.lowLatency (max (r - 100) 100))) ∧
      st'.timer = some (max (r - 100) 100)) ∧
    (∃ st2 u, LevelCtrl.loadLowLatencyLevel st details = some (st2, some u) ∧
      u = LevelCtrl.stripQuery details.url ++ "?_HLS_msn=" ++
        toString ((if st.currentSn = -1 then details.endSN else st.currentSn) +
          (if details.updated = some true then 1 else 0)) ∧
      st2.currentSn = (if st.currentSn = -1 then details.endSN else st.currentSn) +
        (if details.updated = some true then 1 else 0)) ∧
    ((LevelCtrl.loadLowLatencyLevel LevelCtrl.stEx LevelCtrl.detailsEx).map
        (fun q => (q.2, q.1.currentSn)) =
      some (some "https://e/ll.m3u8?_HLS_msn=43", 43) ∧
    (LevelCtrl.onLevelLoaded LevelCtrl.stEx 0 LevelCtrl.detailsEx 1000).map
        (fun q => (q.2.2, q.1.timer)) =
      some (some (LevelCtrl.Armed.lowLatency 900), some 900)) := by
  refine ⟨?_, ?_, by decide⟩
  · simp only [LevelCtrl.onLevelLoaded, hcur, hlv]
    rw [if_neg (by simp)]
    simp [hlive, hsc, hpt, hblock, hpt0]
  · simp only [LevelCtrl.loadLowLatencyLevel, hcan, if_pos rfl, hsc]
    by_cases hupd : details.updated = some true
    · simp only [hupd, if_pos rfl]
      exact ⟨_, _, rfl, by simp, by simp⟩
    · rw [if_neg hupd, if_neg hupd]
      exact ⟨_, _, rfl, by simp [hupd], by simp [hupd]⟩

/-- C6, witness at the S7 scenario input. -/
theorem C6_lowLatency_reload_witness :
    (∃ st' d', LevelCtrl.onLevelLoaded LevelCtrl.stEx 0 LevelCtrl.detailsEx 1000 =
        some (st', d', some (LevelCtrl.Armed.lowLatency (max (1000 - 100) 100))) ∧
      st'.timer = some (max (1000 - 100) 100)) ∧
    (∃ st2 u, LevelCtrl.loadLowLatencyLevel LevelCtrl.stEx LevelCtrl.detailsEx =
        some (st2, some u) ∧
      u = LevelCtrl.stripQuery LevelCtrl.detailsEx.url ++ "?_HLS_msn=" ++
        toString ((if LevelCtrl.stEx.currentSn = -1 then LevelCtrl.detailsEx.endSN
            else LevelCtrl.stEx.currentSn) +
          (if LevelCtrl.detailsEx.updated = some true then 1 else 0)) ∧
      st2.currentSn = (if LevelCtrl.stEx.currentSn = -1 then LevelCtrl.detailsEx.endSN
          else LevelCtrl.stEx.currentSn) +
        (if LevelCtrl.detailsEx.updated = some true then 1 else 0)) ∧
    ((LevelCtrl.loadLowLatencyLevel LevelCtrl.stEx LevelCtrl.detailsEx).map
        (fun q => (q.2, q.1.currentSn)) =
      some (some "https://e/ll.m3u8?_HLS_msn=43", 43) ∧
    (LevelCtrl.onLevelLoaded LevelCtrl.stEx 0 LevelCtrl.detailsEx 1000).map
        (fun q => (q.2.2, q.1.timer)) =
      some (some (LevelCtrl.Armed.lowLatency 900), some 900)) :=
  C6_lowLatency_reload LevelCtrl.stEx 0 LevelCtrl.detailsEx 1000 LevelCtrl.lvEx
    LevelCtrl.scEx 1 rfl rfl rfl rfl rfl rfl (by norm_num) rfl

namespace LevelCtrl

theorem insertByBitrate_perm (lv : Level) (l : List Level) :
    (insertByBitrate lv l).Perm (lv :: l) := by
  induction l with
  | nil => exact List.Perm.refl _
  | cons x xs ih =>
    simp only [insertByBitrate]
    split
    · exact ((ih.cons x).trans (List.Perm.swap lv x xs))
    · exact List.Perm.refl _

theorem sortByBitrate_perm (l : List Level) : (sortByBitrate l).Perm l := by
  induction l with
  | nil => exact List.Perm.refl _
  | cons x xs ih =>
    exact (insertByBitrate_perm x (sortByBitrate xs)).trans (ih.cons x)

theorem insertByBitrate_sorted (lv : Level) (l : List Level)
    (h : l.Pairwise (fun a b => a.bitrate ≤ b.bitrate)) :
    (insertByBitrate lv l).Pairwise (fun a b => a.bitrate ≤ b.bitrate) := by
  induction l with
  | nil => simp [insertByBitrate]
  | cons x xs ih =>
    rcases List.pairwise_cons.mp h with ⟨hx, hxs⟩
    simp only [insertByBitrate]
    split
    · rename_i hle
      refine List.pairwise_cons.mpr ⟨?_, ih hxs⟩
      intro y hy
      rcases List.mem_cons.mp (((insertByBitrate_perm lv xs).mem_iff).mp hy) with rfl | hy'
      · exact hle
      · exact hx y hy'
    · rename_i hgt
      refine List.pairwise_cons.mpr ⟨?_, h⟩
      intro y hy
      rcases List.mem_cons.mp hy with rfl | hy'
      · exact le_of_lt (lt_of_not_le hgt)
      · exact le_trans (le_of_lt (lt_of_not_le hgt)) (hx y hy')

theorem sortByBitrate_sorted (l : List Level) :
    (sortByBitrate l).Pairwise (fun a b => a.bitrate ≤ b.bitrate) := by
  induction l with
  | nil => simp [sortByBitrate]
  | cons x xs ih => exact insertByBitrate_sorted x (sortByBitrate xs) ih

theorem applyAttrs_fields (lv : Level) (p : LevelParsed) :
    (applyAttrs lv p).bitrate = lv.bitrate ∧
    (applyAttrs lv p).url = lv.url ∧ (applyAttrs lv p).urlId = lv.urlId := by
  simp only [applyAttrs, addGroupIdAudio, addGroupIdText]
  rcases p.attrAudio with _ | g <;> rcases p.attrSubtitles with _ | g' <;>
    exact ⟨rfl, rfl, rfl⟩

/-- Invariant of the grouping loop: pairwise distinct bitrates, and every
grouped level has `urlId = 0` and a nonempty `url` array. -/
def GroupInv (levels : List Level) : Prop :=
  levels.Pairwise (fun a b => a.bitrate ≠ b.bitrate) ∧
  ∀ lv ∈ levels, lv.urlId = 0 ∧ 0 < lv.url.length

theorem groupMap_inv (levels : List Level) (p : LevelParsed)
    (h : GroupInv levels) :
    GroupInv (levels.map (fun lv =>
      if lv.bitrate = p.bitrate then
        applyAttrs { lv with url := lv.url ++ [p.url] } p
      else lv)) := by
  obtain ⟨hpw, hmem⟩ := h
  constructor
  · rw [List.pairwise_map]
    refine hpw.imp ?_
    intro a b hab
    split <;> split <;> (try simp only [(applyAttrs_fields _ _).1]) <;> exact hab
  · intro lv hlv
    rcases List.mem_map.mp hlv with ⟨lv0, hlv0, rfl⟩
    obtain ⟨h1, h2⟩ := hmem lv0 hlv0
    split
    · obtain ⟨_, hu, hid⟩ := applyAttrs_fields { lv0 with url := lv0.url ++ [p.url] } p
      rw [hu, hid]
      simp only [List.length_append]
      exact ⟨h1, by omega⟩
    · exact ⟨h1, h2⟩

theorem groupAppend_inv (levels : List Level) (p : LevelParsed)
    (h : GroupInv levels)
    (hnone : ¬(levels.any (fun lv => lv.bitrate = p.bitrate)) = true) :
    GroupInv (levels ++ [applyAttrs (Level.ofParsed p) p]) := by
  obtain ⟨hpw, hmem⟩ := h
  constructor
  · rw [List.pairwise_append]
    refine ⟨hpw, List.pairwise_singleton _ _, ?_⟩
    intro a ha b hb
    rcases List.mem_singleton.mp hb
    rw [(applyAttrs_fields _ _).1]
    intro heq
    exact hnone (List.any_eq_true.mpr ⟨a, ha, by simp [heq, Level.ofParsed]⟩)
  · intro lv hlv
    rcases List.mem_append.mp hlv with hlv' | hlv'
    · exact hmem lv hlv'
    · rcases List.mem_singleton.mp hlv'
      obtain ⟨_, hu, hid⟩ := applyAttrs_fields (Level.ofParsed p) p
      rw [hu, hid]
      exact ⟨rfl, by simp [Level.ofParsed]⟩

theorem stepParsed_groupInv (cf : Bool) (acc : ParseAcc) (p : LevelParsed)
    (h : GroupInv acc.levels) : GroupInv (stepParsed cf acc p).levels := by
  simp only [stepParsed]
  split <;> split
  · exact groupMap_inv acc.levels _ h
  · rename_i hnone
    exact groupAppend_inv acc.levels _ h hnone
  · exact groupMap_inv acc.levels _ h
  · rename_i hnone
    exact groupAppend_inv acc.levels _ h hnone

theorem groupLevels_groupInv (cf : Bool) (parsed : List LevelParsed) :
    GroupInv (groupLevels cf parsed).levels := by
  suffices h : ∀ acc : ParseAcc, GroupInv acc.levels →
      GroupInv (parsed.foldl (stepParsed cf) acc).levels by
    exact h ⟨[], false, false⟩ ⟨List.Pairwise.nil, by simp⟩
  induction parsed with
  | nil => exact fun acc h => h
  | cons p rest ih =>
    intro acc h
    exact ih _ (stepParsed_groupInv cf acc p h)

theorem filteredLevels_groupInv (cf : Bool) (sa sv : String → Bool)
    (parsed : List LevelParsed) :
    GroupInv (filteredLevels cf sa sv parsed) := by
  obtain ⟨hpw, hmem⟩ := groupLevels_groupInv cf parsed
  simp only [filteredLevels]
  constructor
  · split
    · exact List.Pairwise.sublist ((List.filter_sublist _).trans (List.filter_sublist _)) hpw
    · exact List.Pairwise.sublist (List.filter_sublist _) hpw
  · intro lv hlv
    apply hmem
    have := List.mem_of_mem_filter hlv
    split at this
    · exact List.mem_of_mem_filter this
    · exact this

end LevelCtrl

namespace LevelCtrl

/-- Manifest for the C2 counterexample: the first entry's video codec is
unsupported, the second's is supported. -/
def parsedC2 : List LevelParsed :=
  [⟨500000, "u1", none, some "bad", none, none⟩,
   ⟨300000, "u2", none, some "good", none, none⟩]

end LevelCtrl

/-- C2, counterexample: `bitrateStart` is read from the *filtered* list,
not the unfiltered manifest.  With the first manifest entry (500000 bps)
dropped by codec filtering, the emitted levels are `[300000]` with
`firstLevel = 0`; no emitted level carries the unfiltered first entry's
bitrate 500000, so `firstLevel` cannot index it. -/
theorem C2_counterexample_filtered_start :
    (LevelCtrl.onManifestLoaded false (fun _ => true) (· == "good")
        LevelCtrl.parsedC2).map (fun q => (q.1.map (fun lv => lv.bitrate), q.2)) =
      some ([300000], 0) ∧
    LevelCtrl.parsedC2.head?.map (fun p => p.bitrate) = some 500000 ∧
    500000 ∉ (LevelCtrl.sortedLevels false (fun _ => true) (· == "good")
        LevelCtrl.parsedC2).map (fun lv => lv.bitrate) := by
  decide

/-- C2, amended: after `onManifestLoaded` with at least one level
surviving codec filtering, the emitted levels are strictly sorted by
ascending bitrate, and `firstLevel` is the index in the sorted array of
the level whose bitrate equals the bitrate of the first *surviving*
(grouped and filtered, still unsorted) level — the unfiltered manifest
head only when it survives. -/
theorem C2_sorted_firstLevel_amended (cf : Bool) (sa sv : String → Bool)
    (parsed : List LevelCtrl.LevelParsed) (l0 : LevelCtrl.Level)
    (h : (LevelCtrl.filteredLevels cf sa sv parsed).head? = some l0) :
    ∃ sorted idx,
      LevelCtrl.onManifestLoaded cf sa sv parsed = some (sorted, idx) ∧
      sorted.Pairwise (fun a b => a.bitrate < b.bitrate) ∧
      ∃ hlt : idx < sorted.length, (sorted.get ⟨idx, hlt⟩).bitrate = l0.bitrate := by
  refine ⟨_, _, by rw [LevelCtrl.onManifestLoaded, h], ?_, ?_⟩
  · obtain ⟨hpw, _⟩ := LevelCtrl.filteredLevels_groupInv cf sa sv parsed
    have hsorted := LevelCtrl.sortByBitrate_sorted
      (LevelCtrl.filteredLevels cf sa sv parsed)
    have hperm := LevelCtrl.sortByBitrate_perm
      (LevelCtrl.filteredLevels cf sa sv parsed)
    have hpw' := hpw.perm hperm.symm (fun hxy => Ne.symm hxy)
    exact (hsorted.and hpw').imp (fun hab => lt_of_le_of_ne hab.1 hab.2)
  · have hmem : l0 ∈ LevelCtrl.sortedLevels cf sa sv parsed :=
      (LevelCtrl.sortByBitrate_perm _).mem_iff.mpr
        (List.mem_of_mem_head? (show l0 ∈ _ by rw [h]; rfl))
    have hex : ∃ lv ∈ LevelCtrl.sortedLevels cf sa sv parsed,
        (fun lv : LevelCtrl.Level => decide (lv.bitrate = l0.bitrate)) lv = true :=
      ⟨l0, hmem, by simp⟩
    have hlt := List.findIdx_lt_length_of_exists hex
    refine ⟨hlt, ?_⟩
    have := @List.findIdx_getElem _
      (fun lv : LevelCtrl.Level => decide (lv.bitrate = l0.bitrate))
      (LevelCtrl.sortedLevels cf sa sv parsed) hlt
    simpa [List.get_eq_getElem] using this

/-- C2, witness at the counterexample manifest: the surviving head is the
300000 bps level. -/
theorem C2_sorted_firstLevel_amended_witness :
    ∃ sorted idx,
      LevelCtrl.onManifestLoaded false (fun _ => true) (· == "good")
        LevelCtrl.parsedC2 = some (sorted, idx) ∧
      sorted.Pairwise (fun a b => a.bitrate < b.bitrate) ∧
      ∃ hlt : idx < sorted.length,
        (sorted.get ⟨idx, hlt⟩).bitrate =
          (⟨300000, ["u2"], 0, none, some "good", none, none, none, 0,
            false⟩ : LevelCtrl.Level).bitrate :=
  C2_sorted_firstLevel_amended false (fun _ => true) (· == "good")
    LevelCtrl.parsedC2
    ⟨300000, ["u2"], 0, none, some "good", none, none, none, 0, false⟩
    (by decide)

namespace LevelCtrl

/-- The spec's Level invariant: `0 ≤ urlId < url.length`. -/
abbrev UrlInv (levels : List Level) : Prop :=
  ∀ lv ∈ levels, 0 ≤ lv.urlId ∧ lv.urlId < (lv.url.length : ℤ)

theorem tmod_urlId_bound (u : ℤ) (n : ℕ) (h0 : 0 ≤ u) (h1 : u < (n : ℤ)) :
    0 ≤ Int.tmod (u + 1) (n : ℤ) ∧ Int.tmod (u + 1) (n : ℤ) < (n : ℤ) := by
  have hb : (0 : ℤ) < (n : ℤ) := by omega
  rw [Int.tmod_eq_emod (by omega) (by omega)]
  exact ⟨Int.emod_nonneg _ (by omega), Int.emod_lt_of_pos _ hb⟩

theorem sortedLevels_urlInv (cf : Bool) (sa sv : String → Bool)
    (parsed : List LevelParsed) : UrlInv (sortedLevels cf sa sv parsed) := by
  obtain ⟨_, hmem⟩ := filteredLevels_groupInv cf sa sv parsed
  intro lv hlv
  obtain ⟨h0, h1⟩ := hmem lv ((sortByBitrate_perm _).subset hlv)
  rw [h0]
  exact ⟨le_refl 0, by exact_mod_cast h1⟩

theorem recoverLevel_urlInv (cfg : Config) (st : CtrlState) (levelIndex : ℕ)
    (levelError fragmentError : Bool) (st' : CtrlState) (out : RecoverOut)
    (hinv : UrlInv st.levels)
    (hrec : recoverLevel cfg st levelIndex levelError fragmentError =
      some (st', out)) : UrlInv st'.levels := by
  rcases hget : st.levels[levelIndex]? with _ | lv0
  · rw [recoverLevel, hget] at hrec
    exact absurd hrec (by simp)
  · rw [recoverLevel, hget] at hrec
    simp only at hrec
    repeat' split at hrec
    all_goals (
      simp only [Option.some.injEq, Prod.mk.injEq] at hrec
      obtain ⟨rfl, rfl⟩ := hrec
      intro lv hlv
      rcases List.mem_or_eq_of_mem_set hlv with hmm | rfl
      · exact hinv lv hmm
      · obtain ⟨h0, h1⟩ := hinv lv0 (List.getElem?_mem hget)
        first
          | exact ⟨h0, h1⟩
          | exact tmod_urlId_bound lv0.urlId lv0.url.length h0 h1)

theorem removeLevel_urlInv (st : CtrlState) (levelIndex : ℕ)
    (urlId : Option ℕ) (hinv : UrlInv st.levels) :
    UrlInv (removeLevel st levelIndex urlId).levels := by
  intro lv hlv
  simp only [removeLevel] at hlv
  rcases List.mem_map.mp hlv with ⟨⟨i, lv1⟩, hmem1, rfl⟩
  have hfields : (reindexFrags i lv1).urlId = lv1.urlId ∧
      (reindexFrags i lv1).url = lv1.url := by
    rw [reindexFrags]
    rcases lv1.details with _ | d <;> exact ⟨rfl, rfl⟩
  rw [hfields.1, hfields.2]
  have hlv1 := List.snd_mem_of_mem_enum hmem1
  rcases List.mem_filterMap.mp hlv1 with ⟨⟨j, lv0⟩, hj, hf⟩
  have hlv0 : lv0 ∈ st.levels := List.snd_mem_of_mem_enum hj
  obtain ⟨h0, h1⟩ := hinv lv0 hlv0
  split at hf
  · rcases Option.some.inj hf
    exact ⟨h0, h1⟩
  · split at hf
    · rename_i hlen
      rcases Option.some.inj hf
      dsimp only
      dsimp only at hlen
      refine ⟨le_refl 0, ?_⟩
      have hpos : 0 < (lv0.url.eraseIdx (urlId.getD 0)).length := by
        rw [List.length_eraseIdx]
        split <;> omega
      exact_mod_cast hpos
    · exact absurd hf (by simp)

theorem startLoad_urlInv (st : CtrlState) (hinv : UrlInv st.levels) :
    UrlInv (startLoad st).levels := by
  intro lv hlv
  simp only [startLoad] at hlv
  rcases List.mem_map.mp hlv with ⟨lv0, hlv0, rfl⟩
  exact hinv lv0 hlv0

theorem onAudioTrackSwitched_urlInv (st : CtrlState) (g : String)
    (hinv : UrlInv st.levels)
    (hcond : ∀ idx lv gids, st.currentLevelIndex = some idx →
      st.levels[idx]? = some lv → lv.audioGroupIds = some gids →
      gids.any (· == g) = true ∧
        ((gids.findIdx (· == g) : ℕ) : ℤ) < (lv.url.length : ℤ)) :
    UrlInv (onAudioTrackSwitched st g).levels := by
  rcases hc : st.currentLevelIndex with _ | idx
  · simpa [onAudioTrackSwitched, hc] using hinv
  · rcases hg : st.levels[idx]? with _ | lv0
    · simpa [onAudioTrackSwitched, hc, hg] using hinv
    · rcases ha : lv0.audioGroupIds with _ | gids
      · simpa [onAudioTrackSwitched, hc, hg, ha] using hinv
      · obtain ⟨hany, hlt⟩ := hcond idx lv0 gids hc hg ha
        rw [onAudioTrackSwitched, hc]
        simp only [hg, ha, hany]
        split
        · split
          · apply startLoad_urlInv
            intro lv hlv
            rcases List.mem_or_eq_of_mem_set hlv with hmm | rfl
            · exact hinv lv hmm
            · exact ⟨Int.ofNat_nonneg _, hlt⟩
          · exact hinv
        · simp_all

/-- The C3 counterexample level: one URL, one audio group id. -/
def lvC3 : Level :=
  ⟨500000, ["u"], 0, none, none, some ["A"], none, none, 0, false⟩

/-- The C3 counterexample state. -/
def stC3 : CtrlState := ⟨[lvC3], some 0, 0, none, -1, true, -1, -1⟩

/-- A state for the C3 witness: two redundant URLs, two audio groups. -/
def lvC3w : Level :=
  ⟨500000, ["u1", "u2"], 0, none, none, some ["A", "B"], none, none, 0, false⟩

/-- Witness state for C3. -/
def stC3w : CtrlState := ⟨[lvC3w], some 0, 0, none, -1, true, -1, -1⟩

/-- Witness state for the C3 recoverLevel conjunct. -/
def stC3r : CtrlState :=
  ⟨[⟨1, ["u"], 0, none, none, none, none, none, 0, false⟩],
    none, 0, none, 0, false, -1, -1⟩

end LevelCtrl

/-- C3, counterexample: the invariant `0 ≤ urlId < url.length` holds
before, but `onAudioTrackSwitched` with a group id matching no entry of
`audioGroupIds` writes `urlId = -1`, violating it. -/
theorem C3_counterexample_urlId_minus_one :
    (∀ lv ∈ LevelCtrl.stC3.levels, 0 ≤ lv.urlId ∧ lv.urlId < (lv.url.length : ℤ)) ∧
    (LevelCtrl.onAudioTrackSwitched LevelCtrl.stC3 "B").levels.map
      (fun lv => lv.urlId) = [-1] ∧
    ¬(∀ lv ∈ (LevelCtrl.onAudioTrackSwitched LevelCtrl.stC3 "B").levels,
      0 ≤ lv.urlId ∧ lv.urlId < (lv.url.length : ℤ)) := by
  decide

/-- C3, amended: the invariant `0 ≤ urlId < url.length` holds for every
level after manifest admission, is preserved by `recoverLevel` and by
`removeLevel`, and is preserved by `onAudioTrackSwitched` *provided* the
switched track's group id occurs in the current level's `audioGroupIds`
at an index below `url.length`; when no entry matches, the handler
writes `urlId = -1` and the invariant fails (see the counterexample). -/
theorem C3_urlId_invariant_amended (cf : Bool) (sa sv : String → Bool)
    (parsed : List LevelCtrl.LevelParsed) (cfg : LevelCtrl.Config)
    (st₁ : LevelCtrl.CtrlState) (levelIndex : ℕ) (levelError fragmentError : Bool)
    (st₁' : LevelCtrl.CtrlState) (out : LevelCtrl.RecoverOut)
    (st₂ : LevelCtrl.CtrlState) (ridx : ℕ) (ruid : Option ℕ)
    (st₃ : LevelCtrl.CtrlState) (g : String)
    (hinv₁ : LevelCtrl.UrlInv st₁.levels)
    (hrec : LevelCtrl.recoverLevel cfg st₁ levelIndex levelError fragmentError =
      some (st₁', out))
    (hinv₂ : LevelCtrl.UrlInv st₂.levels)
    (hinv₃ : LevelCtrl.UrlInv st₃.levels)
    (hmatch : ∀ idx lv gids, st₃.currentLevelIndex = some idx →
      st₃.levels[idx]? = some lv → lv.audioGroupIds = some gids →
      gids.any (· == g) = true ∧
        ((gids.findIdx (· == g) : ℕ) : ℤ) < (lv.url.length : ℤ)) :
    LevelCtrl.UrlInv (LevelCtrl.sortedLevels cf sa sv parsed) ∧
    LevelCtrl.UrlInv st₁'.levels ∧
    LevelCtrl.UrlInv (LevelCtrl.removeLevel st₂ ridx ruid).levels ∧
    LevelCtrl.UrlInv (LevelCtrl.onAudioTrackSwitched st₃ g).levels :=
  ⟨LevelCtrl.sortedLevels_urlInv cf sa sv parsed,
   LevelCtrl.recoverLevel_urlInv cfg st₁ levelIndex levelError fragmentError
     st₁' out hinv₁ hrec,
   LevelCtrl.removeLevel_urlInv st₂ ridx ruid hinv₂,
   LevelCtrl.onAudioTrackSwitched_urlInv st₃ g hinv₃ hmatch⟩

/-- C3, witness: concrete states for each conjunct (a one-level manifest;
a fragment error recovered on a single-URL level; a removal; an audio
switch whose group id matches at index 1 of two URLs). -/
theorem C3_urlId_invariant_amended_witness :
    LevelCtrl.UrlInv (LevelCtrl.sortedLevels false (fun _ => true)
      (fun _ => true) LevelCtrl.parsedC2) ∧
    LevelCtrl.UrlInv
      (⟨[⟨1, ["u"], 0, none, none, none, none, none, 1, false⟩],
        none, 0, none, 0, false, -1, -1⟩ : LevelCtrl.CtrlState).levels ∧
    LevelCtrl.UrlInv (LevelCtrl.removeLevel LevelCtrl.stC3w 0 (some 0)).levels ∧
    LevelCtrl.UrlInv (LevelCtrl.onAudioTrackSwitched LevelCtrl.stC3w "B").levels :=
  C3_urlId_invariant_amended false (fun _ => true) (fun _ => true)
    LevelCtrl.parsedC2 LevelCtrl.cfgS3 LevelCtrl.stC3r 0 false false
    ⟨[⟨1, ["u"], 0, none, none, none, none, none, 1, false⟩],
      none, 0, none, 0, false, -1, -1⟩ ⟨false, false⟩
    LevelCtrl.stC3w 0 (some 0) LevelCtrl.stC3w "B"
    (by decide) (by decide) (by decide) (by decide)
    (by
      rintro idx lv gids h1 h2 h3
      obtain rfl : 0 = idx := Option.some.inj h1
      obtain rfl : LevelCtrl.lvC3w = lv := Option.some.inj h2
      obtain rfl : ["A", "B"] = gids := Option.some.inj h3
      exact ⟨by decide, by decide⟩)
